import Mathlib

/-
Verification of the orchestration layer of TileStache's MPSandwich provider
(src/TileStache/MPSandwich.py).  The definitions below are a shallow
embedding of Provider.draw_stack (lines 134-209) and of the worker bodies
local_bitmap / layer_bitmap (lines 212-217).

Modelling notes.
* A stack directive is a Python dict with optional keys src, mask, color and
  zoom; Python truthiness of a fetched value (None or the empty string are
  falsy) is embedded by the function truthy below.
* The per-invocation tile cache (the tiles argument) is a Python dict keyed
  by layer name.  It is embedded as an association list; dict assignment is
  dictUpdate, dict lookup is lookupTile, dict membership is hasKey, and
  tiles.keys() (a fresh list in Python 2, as line 196 t.keys()[0] shows the
  code targets) is keysOf.
* The planning loop (lines 148-178) is planLayers; its state (stackLayers
  and procs) is PlanState.  The raise at line 155 and the KeyError a missing
  mask layer raises at line 178 via self.config.layers[mask_name] are the
  two error exits, embedded as PlanError.  planLayers returns the state at
  the moment of the error so that facts about processes created before the
  exception remain statable.
* The configuration is embedded as the list of configured layer names,
  the only part of it the orchestration consults (line 168 membership and
  line 170/178 indexing).
* Worker processes are started only after the loop (lines 185-188);
  startedProcs captures this.  Each worker evaluates one render operation
  and performs one queue put on success (lines 212-217, no try/except);
  a render represented by an Option result (none = the worker never puts:
  crash or unbounded delay) gives workerOutput, and an Except-valued render
  gives workerPuts / workerEscapes, which additionally records the exception
  escaping the worker boundary.
* The collection loop (lines 192-199) performs exactly numProcs blocking
  queue gets with no timeout; collectLoop returns none when fewer items
  than numProcs ever arrive, representing the loop blocking forever.  The
  arrival order on the queue is nondeterministic; it is modelled here as
  the dispatch order, a choice shown immaterial by merge order independence
  (mergeResults lookup is invariant under permutations with distinct keys).
* Sandwich.in_zoom is not among the sources; inZoom is modelled from the
  spec.  The compositing step (Sandwich.Provider.draw_stack, line 209) and
  the per-layer render functions are external collaborators and appear as
  function parameters.
-/

structure Coordinate where
  zoom : Int
  column : Int
  row : Int
deriving DecidableEq, Repr

/-- One entry of the stack configuration: the optional src, mask, color and
zoom keys of the directive dict.  Blend mode, opacity and adjustments do not
influence orchestration and are omitted. -/
structure LayerDirective where
  src : Option String
  mask : Option String
  color : Option String
  zoom : Option (Int × Int)
deriving DecidableEq, Repr

/-- Python truthiness of an optional string value fetched with dict.get:
None and the empty string are falsy. -/
def truthy : Option String → Bool
  | none => false
  | some s => !s.isEmpty

/-- Modelled from the spec: Sandwich.in_zoom is not among the source files.
The spec describes the zoom restriction as an inclusive range or a single
value (a single value z is the range (z, z)); a directive applies when the
target coordinate zoom falls inside the range. -/
def inZoom (coord : Coordinate) (z : Int × Int) : Bool :=
  decide (z.1 ≤ coord.zoom) && decide (coord.zoom ≤ z.2)

/-- The zoom guard of line 149: a directive is skipped when it carries a
zoom restriction excluding the target coordinate zoom. -/
def zoomSkipped (coord : Coordinate) (layer : LayerDirective) : Bool :=
  match layer.zoom with
  | some z => !inZoom coord z
  | none => false

/-- The check of line 154: src, color and mask simultaneously truthy. -/
def tripleBad (layer : LayerDirective) : Bool :=
  truthy layer.src && truthy layer.color && truthy layer.mask

inductive JobKind
  | configuredLayer
  | localBitmap
deriving DecidableEq, Repr

/-- A planned worker process: its name and target function arguments.
Line 170 targets layer_bitmap (configuredLayer), line 173 local_bitmap. -/
structure RenderJob where
  name : String
  kind : JobKind
  coord : Coordinate
deriving DecidableEq, Repr

/-- The two local variables mutated by the planning loop: the membership
list stackLayers (seeded from tiles.keys() at line 144) and the list of
created processes procs (line 145). -/
structure PlanState where
  stackLayers : List String
  procs : List RenderJob
deriving DecidableEq, Repr

/-- The two ways the planning loop can raise: the Core.KnownUnknown of
line 155, and the KeyError that self.config.layers[mask_name] raises at
line 178 when the mask names no configured layer. -/
inductive PlanError
  | knownUnknown (msg : String)
  | keyError (key : String)
deriving DecidableEq, Repr

/-- Lines 162-173: dispatch of a truthy src name not yet in stackLayers.
The name is appended to stackLayers and a process is created, targeting
layer_bitmap when the name is a configured layer and local_bitmap
otherwise. -/
def srcStep (config : List String) (coord : Coordinate) (st : PlanState) :
    Option String → PlanState
  | some s =>
      if s.isEmpty then st
      else if s ∈ st.stackLayers then st
      else
        ⟨st.stackLayers ++ [s],
         st.procs ++ [⟨s, if s ∈ config then .configuredLayer else .localBitmap, coord⟩]⟩
  | none => st

/-- Lines 175-178: dispatch of a truthy mask name not yet in stackLayers.
stackLayers is appended first (line 177); building the process arguments
then indexes self.config.layers with the mask name, raising a KeyError when
it is absent (line 178), in which case no process is created. -/
def maskStep (config : List String) (coord : Coordinate) (st : PlanState) :
    Option String → PlanState × Option PlanError
  | some m =>
      if m.isEmpty then (st, none)
      else if m ∈ st.stackLayers then (st, none)
      else if m ∈ config then
        (⟨st.stackLayers ++ [m], st.procs ++ [⟨m, .configuredLayer, coord⟩]⟩, none)
      else
        (⟨st.stackLayers ++ [m], st.procs⟩, some (.keyError m))
  | none => (st, none)

/-- Lines 152-178 for one directive after the zoom guard: the triple check
of lines 154-155, then the src dispatch, then the mask dispatch. -/
def planCheck (config : List String) (coord : Coordinate) (st : PlanState)
    (layer : LayerDirective) : PlanState × Option PlanError :=
  if tripleBad layer then
    (st, some (.knownUnknown ("You can't specify src, color and mask together in a Sandwich Layer")))
  else
    maskStep config coord (srcStep config coord st layer.src) layer.mask

/-- Lines 148-178 for one directive, zoom guard included. -/
def planStep (config : List String) (coord : Coordinate) (st : PlanState)
    (layer : LayerDirective) : PlanState × Option PlanError :=
  if zoomSkipped coord layer then (st, none)
  else planCheck config coord st layer

/-- The whole planning loop over the stack.  An exception stops the loop at
once, carrying the state reached at that point. -/
def planLayers (config : List String) (coord : Coordinate) :
    PlanState → List LayerDirective → PlanState × Option PlanError
  | st, [] => (st, none)
  | st, layer :: rest =>
      match planStep config coord st layer with
      | (st', none) => planLayers config coord st' rest
      | (st', some e) => (st', some e)

abbrev TileCache (α : Type) : Type := List (String × α)

/-- The keys of the cache dict, as in tiles.keys() at line 144. -/
def keysOf {α : Type} (d : TileCache α) : List String :=
  d.map Prod.fst

/-- Dict lookup in the cache. -/
def lookupTile {α : Type} (d : TileCache α) (k : String) : Option α :=
  match d with
  | [] => none
  | p :: t => if p.1 = k then some p.2 else lookupTile t k

/-- Dict membership in the cache. -/
def hasKey {α : Type} (d : TileCache α) (k : String) : Bool :=
  match d with
  | [] => false
  | p :: t => decide (p.1 = k) || hasKey t k

/-- Dict assignment d[k] = v: the value at an existing key is replaced in
place, a new key is appended at the end. -/
def dictUpdate {α : Type} (d : TileCache α) (k : String) (v : α) : TileCache α :=
  match d with
  | [] => [(k, v)]
  | p :: t => if p.1 = k then (k, v) :: t else p :: dictUpdate t k v

/-- The merge of line 199, once per collected result: tiles.update(t) where
each t is a one-entry dict keyed by the worker name. -/
def mergeResults {α : Type} (d : TileCache α) (l : List (String × α)) : TileCache α :=
  l.foldl (fun acc p => dictUpdate acc p.1 p.2) d

/-- Planning for a whole invocation: stackLayers starts as tiles.keys()
(line 144) and procs starts empty (line 145). -/
def planStack {α : Type} (config : List String) (coord : Coordinate)
    (tiles : TileCache α) (stack : List LayerDirective) : PlanState × Option PlanError :=
  planLayers config coord ⟨keysOf tiles, []⟩ stack

/-- The processes actually started (lines 185-188): the start loop runs
only when the planning loop completed without raising. -/
def startedProcs {α : Type} (config : List String) (coord : Coordinate)
    (tiles : TileCache α) (stack : List LayerDirective) : List RenderJob :=
  match planStack config coord tiles stack with
  | (st, none) => st.procs
  | (_, some _) => []

/-- What one worker contributes to the queue (lines 212-217): the single
put {source: image} when the render operation returns, nothing when the
worker crashes or never finishes (render j = none). -/
def workerOutput {α : Type} (render : RenderJob → Option α) (j : RenderJob) :
    Option (String × α) :=
  (render j).map (fun img => (j.name, img))

/-- The collection loop of lines 192-199: exactly numProcs blocking queue
gets with no timeout, each followed by tiles.update.  When fewer than
numProcs items ever arrive on the queue the loop blocks forever, embedded
as the result none. -/
def collectLoop {α : Type} (tiles : TileCache α) (queueItems : List (String × α))
    (numProcs : Nat) : Option (TileCache α) :=
  if numProcs ≤ queueItems.length then
    some (mergeResults tiles (queueItems.take numProcs))
  else none

inductive Outcome (β : Type)
  | raised (e : PlanError)
  | blocked
  | composed (img : β)
deriving DecidableEq, Repr

/-- The cache handed to the compositing call of line 209, none when
compositing is never reached (a planning exception, or a collection loop
that blocks forever). -/
def compositorCache {α : Type} (config : List String) (coord : Coordinate)
    (tiles : TileCache α) (stack : List LayerDirective)
    (render : RenderJob → Option α) : Option (TileCache α) :=
  match planStack config coord tiles stack with
  | (_, some _) => none
  | (st, none) =>
      collectLoop tiles (st.procs.filterMap (workerOutput render)) st.procs.length

/-- Provider.draw_stack, lines 134-209: plan, start the workers, collect
one queue item per worker, then hand the merged cache to the compositing
step (the external Sandwich.Provider.draw_stack). -/
def draw_stack {α β : Type} (config : List String) (coord : Coordinate)
    (tiles : TileCache α) (stack : List LayerDirective)
    (render : RenderJob → Option α)
    (composite : Coordinate → TileCache α → β) : Outcome β :=
  match planStack config coord tiles stack with
  | (_, some e) => .raised e
  | (st, none) =>
      match collectLoop tiles (st.procs.filterMap (workerOutput render)) st.procs.length with
      | some cache => .composed (composite coord cache)
      | none => .blocked

/-- The queue puts a worker performs (lines 212-217): one put when the
render returns, none when it raises, since there is no try/except around
the render call. -/
def workerPuts {ε α : Type} (render : RenderJob → Except ε α) (j : RenderJob) :
    List (String × α) :=
  match render j with
  | .ok img => [(j.name, img)]
  | .error _ => []

/-- The exception escaping the worker boundary (lines 212-217): the worker
body q.put({source: render(...)}) has no handler, so a raising render
propagates out of the worker function uncaught. -/
def workerEscapes {ε α : Type} (render : RenderJob → Except ε α) (j : RenderJob) :
    Option ε :=
  match render j with
  | .ok _ => none
  | .error e => some e

/-- The names a directive references, as Python truthiness sees them. -/
def optRef : Option String → List String
  | some s => if s.isEmpty then [] else [s]
  | none => []

def layerRefs (layer : LayerDirective) : List String :=
  optRef layer.src ++ optRef layer.mask

/-- The names a directive references unless its zoom restriction skips it. -/
def layerRefsAt (coord : Coordinate) (layer : LayerDirective) : List String :=
  if zoomSkipped coord layer then [] else layerRefs layer

/-- All names the stack references at the target coordinate. -/
def referencedNames (coord : Coordinate) (stack : List LayerDirective) : List String :=
  stack.flatMap (layerRefsAt coord)

/-- Whether an outcome is the raise of line 155. -/
def isKnownUnknownRaise {β : Type} : Outcome β → Bool
  | .raised (.knownUnknown _) => true
  | _ => false


/-! Basic facts about the cache dict operations. -/

theorem lookupTile_dictUpdate {α : Type} (d : TileCache α) (k k' : String) (v : α) :
    lookupTile (dictUpdate d k v) k' = if k' = k then some v else lookupTile d k' := by
  induction d with
  | nil =>
      by_cases h : k' = k
      · subst h; simp [dictUpdate, lookupTile]
      · have h2 : ¬ k = k' := fun hh => h hh.symm
        simp [dictUpdate, lookupTile, h, h2]
  | cons p t ih =>
      by_cases hpk : p.1 = k
      · by_cases hk : k' = k
        · subst hk; simp [dictUpdate, lookupTile, hpk]
        · have hpk' : ¬ p.1 = k' := fun hh => hk ((hh.symm).trans hpk)
          have hk2 : ¬ k = k' := fun hh => hk hh.symm
          simp [dictUpdate, lookupTile, hpk, hk, hk2, hpk']
      · by_cases hpk' : p.1 = k'
        · have hk : ¬ k' = k := fun h => hpk (hpk'.trans h)
          simp [dictUpdate, lookupTile, hpk, hpk', hk]
        · simp [dictUpdate, lookupTile, hpk, hpk', ih]

theorem hasKey_dictUpdate {α : Type} (d : TileCache α) (k k' : String) (v : α) :
    hasKey (dictUpdate d k v) k' = true ↔ k = k' ∨ hasKey d k' = true := by
  induction d with
  | nil => simp [dictUpdate, hasKey]
  | cons p t ih =>
      by_cases hpk : p.1 = k
      · subst hpk
        simp [dictUpdate, hasKey]
      · simp only [dictUpdate, if_neg hpk, hasKey, Bool.or_eq_true, decide_eq_true_eq, ih]
        tauto

theorem hasKey_iff_mem_keysOf {α : Type} (d : TileCache α) (k : String) :
    hasKey d k = true ↔ k ∈ keysOf d := by
  induction d with
  | nil => simp [hasKey, keysOf]
  | cons p t ih =>
      simp only [hasKey, keysOf, Bool.or_eq_true, decide_eq_true_eq, ih,
        List.map_cons, List.mem_cons]
      tauto

theorem hasKey_eq_isSome_lookupTile {α : Type} (d : TileCache α) (k : String) :
    hasKey d k = (lookupTile d k).isSome := by
  induction d with
  | nil => simp [hasKey, lookupTile]
  | cons p t ih =>
      by_cases h : p.1 = k <;> simp [hasKey, lookupTile, h, ih]

theorem mergeResults_cons {α : Type} (d : TileCache α) (p : String × α)
    (l : List (String × α)) :
    mergeResults d (p :: l) = mergeResults (dictUpdate d p.1 p.2) l := rfl

theorem lookupTile_mergeResults_of_not_mem {α : Type} (l : List (String × α))
    (d : TileCache α) (k : String) (h : ∀ p ∈ l, p.1 ≠ k) :
    lookupTile (mergeResults d l) k = lookupTile d k := by
  induction l generalizing d with
  | nil => rfl
  | cons p t ih =>
      rw [mergeResults_cons, ih _ (fun q hq => h q (List.mem_cons_of_mem _ hq)),
        lookupTile_dictUpdate]
      have hne : ¬ k = p.1 := fun hk => h p (List.mem_cons_self _ _) hk.symm
      simp [hne]

theorem hasKey_mergeResults {α : Type} (l : List (String × α)) (d : TileCache α)
    (k : String) :
    hasKey (mergeResults d l) k = true ↔ hasKey d k = true ∨ k ∈ l.map Prod.fst := by
  induction l generalizing d with
  | nil => simp [mergeResults]
  | cons p t ih =>
      rw [mergeResults_cons, ih]
      rw [hasKey_dictUpdate]
      simp only [List.map_cons, List.mem_cons]
      tauto

theorem lookupTile_mergeResults_congr {α : Type} (l : List (String × α))
    (c₁ c₂ : TileCache α) (h : ∀ k, lookupTile c₁ k = lookupTile c₂ k) :
    ∀ k, lookupTile (mergeResults c₁ l) k = lookupTile (mergeResults c₂ l) k := by
  induction l generalizing c₁ c₂ with
  | nil => exact h
  | cons p t ih =>
      intro k
      rw [mergeResults_cons, mergeResults_cons]
      exact ih _ _ (fun k' => by rw [lookupTile_dictUpdate, lookupTile_dictUpdate, h k']) k

/-! Facts about the worker outputs on the completion queue. -/

theorem length_filterMap_lt_of_none {α β : Type} (f : α → Option β) (l : List α)
    (a : α) (ha : a ∈ l) (hf : f a = none) :
    (l.filterMap f).length < l.length := by
  induction l with
  | nil => cases ha
  | cons b t ih =>
      rcases List.mem_cons.mp ha with h | h
      · subst h
        rw [List.filterMap_cons, hf]
        exact Nat.lt_succ_of_le (List.length_filterMap_le f t)
      · rw [List.filterMap_cons]
        cases hb : f b with
        | none => exact Nat.lt_succ_of_lt (ih h)
        | some c => simpa using Nat.succ_lt_succ (ih h)

theorem isSome_of_filterMap_length_eq {α β : Type} (f : α → Option β) (l : List α)
    (h : (l.filterMap f).length = l.length) :
    ∀ a ∈ l, (f a).isSome = true := by
  intro a ha
  cases hf : f a with
  | none => exact absurd h (Nat.ne_of_lt (length_filterMap_lt_of_none f l a ha hf))
  | some b => rfl

theorem filterMap_workerOutput_names {α : Type} (render : RenderJob → Option α)
    (l : List RenderJob) (h : ∀ j ∈ l, (render j).isSome = true) :
    (l.filterMap (workerOutput render)).map Prod.fst = l.map RenderJob.name := by
  induction l with
  | nil => rfl
  | cons j t ih =>
      rcases Option.isSome_iff_exists.mp (h j (List.mem_cons_self _ _)) with ⟨img, hj⟩
      rw [List.filterMap_cons]
      have hw : workerOutput render j = some (j.name, img) := by
        simp [workerOutput, hj]
      rw [hw]
      simp only [List.map_cons]
      rw [ih (fun a ha => h a (List.mem_cons_of_mem _ ha))]

theorem fst_mem_of_mem_filterMap_workerOutput {α : Type}
    (render : RenderJob → Option α) (l : List RenderJob) (p : String × α)
    (hp : p ∈ l.filterMap (workerOutput render)) :
    p.1 ∈ l.map RenderJob.name := by
  rcases List.mem_filterMap.mp hp with ⟨j, hj, hw⟩
  cases hr : render j with
  | none => rw [workerOutput, hr] at hw; cases hw
  | some img =>
      rw [workerOutput, hr] at hw
      cases hw
      exact List.mem_map_of_mem _ hj

theorem workerOutput_none_of_render_none {α : Type} (render : RenderJob → Option α)
    (j : RenderJob) (h : render j = none) : workerOutput render j = none := by
  rw [workerOutput, h]; rfl

/-! Order independence of the collection merge: updating the cache with the
same results in any arrival order yields the same key-to-image mapping,
provided the result names are pairwise distinct. -/

theorem lookupTile_mergeResults_perm {α : Type} (l₁ l₂ : List (String × α))
    (hp : List.Perm l₁ l₂) :
    (l₁.map Prod.fst).Nodup →
      ∀ (c : TileCache α) (k : String),
        lookupTile (mergeResults c l₁) k = lookupTile (mergeResults c l₂) k := by
  induction hp with
  | nil => intro _ c k; rfl
  | cons x p ih =>
      intro hd c k
      rw [List.map_cons] at hd
      rw [mergeResults_cons, mergeResults_cons]
      exact ih (List.nodup_cons.mp hd).2 _ k
  | swap x y t =>
      intro hd c k
      rw [List.map_cons, List.map_cons] at hd
      have hxy : y.1 ≠ x.1 :=
        List.ne_of_not_mem_cons (List.nodup_cons.mp hd).1
      have hxy' : x.1 ≠ y.1 := fun h => hxy h.symm
      rw [mergeResults_cons, mergeResults_cons, mergeResults_cons, mergeResults_cons]
      refine lookupTile_mergeResults_congr t _ _ (fun k' => ?_) k
      rw [lookupTile_dictUpdate, lookupTile_dictUpdate, lookupTile_dictUpdate,
        lookupTile_dictUpdate]
      by_cases h1 : k' = x.1
      · by_cases h2 : k' = y.1
        · exact absurd (h1.symm.trans h2) hxy'
        · simp [h1, h2, hxy, hxy']
      · by_cases h2 : k' = y.1
        · simp [h1, h2, hxy, hxy']
        · simp [h1, h2]
  | trans h12 h23 ih1 ih2 =>
      intro hd c k
      have hd2 := ((h12.map Prod.fst).nodup_iff).mp hd
      rw [ih1 hd c k, ih2 hd2 c k]

/-! The planning loop invariant: stackLayers is exactly the pre-seeded keys
followed by the names of the created processes, those names are pairwise
distinct, and none of them was pre-seeded. -/

def PlanOk (init : List String) (st : PlanState) : Prop :=
  st.stackLayers = init ++ st.procs.map RenderJob.name ∧
  (st.procs.map RenderJob.name).Nodup ∧
  ∀ n ∈ st.procs.map RenderJob.name, n ∉ init

theorem planOk_start (init : List String) : PlanOk init ⟨init, []⟩ := by
  refine ⟨by simp, by simp, by simp⟩

theorem planOk_dispatch {init : List String} {st : PlanState} (h : PlanOk init st)
    (s : String) (hs : s ∉ st.stackLayers) (j : RenderJob) (hj : j.name = s) :
    PlanOk init ⟨st.stackLayers ++ [s], st.procs ++ [j]⟩ := by
  obtain ⟨heq, hnd, hdisj⟩ := h
  have hsn : s ∉ st.procs.map RenderJob.name := fun hmem =>
    hs (heq ▸ List.mem_append_right init hmem)
  have hsi : s ∉ init := fun hmem => hs (heq ▸ List.mem_append_left _ hmem)
  refine ⟨?_, ?_, ?_⟩
  · simp only [List.map_append, List.map_cons, List.map_nil, hj, heq,
      List.append_assoc]
  · rw [List.map_append, List.map_cons, List.map_nil, hj]
    exact List.Nodup.append hnd (List.nodup_singleton s)
      (fun a ha hb => hsn ((List.mem_singleton.mp hb) ▸ ha))
  · intro n hn
    rw [List.map_append, List.map_cons, List.map_nil] at hn
    rcases List.mem_append.mp hn with hn | hn
    · exact hdisj n hn
    · rw [List.mem_singleton.mp hn, hj]
      exact hsi

theorem srcStep_ok {init : List String} {st : PlanState} (config : List String)
    (coord : Coordinate) (o : Option String) (h : PlanOk init st) :
    PlanOk init (srcStep config coord st o) ∧
    st.stackLayers ⊆ (srcStep config coord st o).stackLayers ∧
    ∀ n ∈ optRef o, n ∈ (srcStep config coord st o).stackLayers := by
  match o with
  | none => exact ⟨h, fun a ha => ha, by simp [optRef]⟩
  | some s =>
      by_cases hempty : s.isEmpty
      · simp only [srcStep, if_pos hempty]
        exact ⟨h, fun a ha => ha, by simp [optRef, hempty]⟩
      · by_cases hmem : s ∈ st.stackLayers
        · simp only [srcStep, if_neg hempty, if_pos hmem]
          refine ⟨h, fun a ha => ha, ?_⟩
          intro n hn
          rw [optRef, if_neg hempty] at hn
          rw [List.mem_singleton.mp hn]
          exact hmem
        · simp only [srcStep, if_neg hempty, if_neg hmem]
          refine ⟨planOk_dispatch h s hmem _ rfl, fun a ha => List.mem_append_left _ ha, ?_⟩
          intro n hn
          rw [optRef, if_neg hempty] at hn
          rw [List.mem_singleton.mp hn]
          exact List.mem_append_right _ (List.mem_singleton_self s)

theorem maskStep_ok {init : List String} {st : PlanState} (config : List String)
    (coord : Coordinate) (o : Option String) (h : PlanOk init st) :
    st.stackLayers ⊆ (maskStep config coord st o).1.stackLayers ∧
    ((maskStep config coord st o).1.procs.map RenderJob.name).Nodup ∧
    (∀ n ∈ (maskStep config coord st o).1.procs.map RenderJob.name, n ∉ init) ∧
    ((maskStep config coord st o).2 = none →
      PlanOk init (maskStep config coord st o).1 ∧
      ∀ n ∈ optRef o, n ∈ (maskStep config coord st o).1.stackLayers) := by
  match o with
  | none => exact ⟨fun a ha => ha, h.2.1, h.2.2, fun _ => ⟨h, by simp [optRef]⟩⟩
  | some m =>
      by_cases hempty : m.isEmpty
      · simp only [maskStep, if_pos hempty]
        exact ⟨fun a ha => ha, h.2.1, h.2.2, fun _ => ⟨h, by simp [optRef, hempty]⟩⟩
      · by_cases hmem : m ∈ st.stackLayers
        · simp only [maskStep, if_neg hempty, if_pos hmem]
          refine ⟨fun a ha => ha, h.2.1, h.2.2, fun _ => ⟨h, ?_⟩⟩
          intro n hn
          rw [optRef, if_neg hempty] at hn
          rw [List.mem_singleton.mp hn]
          exact hmem
        · by_cases hcfg : m ∈ config
          · simp only [maskStep, if_neg hempty, if_neg hmem, if_pos hcfg]
            have hok := planOk_dispatch h m hmem ⟨m, .configuredLayer, coord⟩ rfl
            refine ⟨fun a ha => List.mem_append_left _ ha, hok.2.1, hok.2.2,
              fun _ => ⟨hok, ?_⟩⟩
            intro n hn
            rw [optRef, if_neg hempty] at hn
            rw [List.mem_singleton.mp hn]
            exact List.mem_append_right _ (List.mem_singleton_self m)
          · simp only [maskStep, if_neg hempty, if_neg hmem, if_neg hcfg]
            exact ⟨fun a ha => List.mem_append_left _ ha, h.2.1, h.2.2,
              fun hcontra => by cases hcontra⟩

theorem referencedNames_cons (coord : Coordinate) (layer : LayerDirective)
    (rest : List LayerDirective) :
    referencedNames coord (layer :: rest) =
      layerRefsAt coord layer ++ referencedNames coord rest := by
  simp [referencedNames]

theorem planStep_ok {init : List String} {st : PlanState} (config : List String)
    (coord : Coordinate) (layer : LayerDirective) (h : PlanOk init st) :
    st.stackLayers ⊆ (planStep config coord st layer).1.stackLayers ∧
    ((planStep config coord st layer).1.procs.map RenderJob.name).Nodup ∧
    (∀ n ∈ (planStep config coord st layer).1.procs.map RenderJob.name, n ∉ init) ∧
    ((planStep config coord st layer).2 = none →
      PlanOk init (planStep config coord st layer).1 ∧
      ∀ n ∈ layerRefsAt coord layer, n ∈ (planStep config coord st layer).1.stackLayers) := by
  by_cases hskip : zoomSkipped coord layer = true
  · simp only [planStep, if_pos hskip]
    exact ⟨fun a ha => ha, h.2.1, h.2.2,
      fun _ => ⟨h, by simp [layerRefsAt, hskip]⟩⟩
  · simp only [planStep, if_neg hskip]
    by_cases hbad : tripleBad layer = true
    · simp only [planCheck, if_pos hbad]
      exact ⟨fun a ha => ha, h.2.1, h.2.2, fun hc => by cases hc⟩
    · simp only [planCheck, if_neg hbad]
      obtain ⟨h1ok, h1sub, h1refs⟩ := srcStep_ok config coord layer.src h
      obtain ⟨h2sub, h2nd, h2disj, h2err⟩ := maskStep_ok config coord layer.mask h1ok
      refine ⟨fun a ha => h2sub (h1sub ha), h2nd, h2disj, fun herr => ?_⟩
      obtain ⟨h2ok, h2refs⟩ := h2err herr
      refine ⟨h2ok, ?_⟩
      intro n hn
      rw [layerRefsAt, if_neg hskip, layerRefs] at hn
      rcases List.mem_append.mp hn with hn | hn
      · exact h2sub (h1refs n hn)
      · exact h2refs n hn

theorem planLayers_ok (config : List String) (coord : Coordinate)
    (init : List String) :
    ∀ (ls : List LayerDirective) (st : PlanState), PlanOk init st →
    st.stackLayers ⊆ (planLayers config coord st ls).1.stackLayers ∧
    ((planLayers config coord st ls).1.procs.map RenderJob.name).Nodup ∧
    (∀ n ∈ (planLayers config coord st ls).1.procs.map RenderJob.name, n ∉ init) ∧
    ((planLayers config coord st ls).2 = none →
      PlanOk init (planLayers config coord st ls).1 ∧
      ∀ n ∈ referencedNames coord ls, n ∈ (planLayers config coord st ls).1.stackLayers) := by
  intro ls
  induction ls with
  | nil =>
      intro st h
      exact ⟨fun a ha => ha, h.2.1, h.2.2, fun _ => ⟨h, by simp [referencedNames]⟩⟩
  | cons layer rest ih =>
      intro st h
      obtain ⟨s1sub, s1nd, s1disj, s1err⟩ := planStep_ok config coord layer h
      rcases hstep : planStep config coord st layer with ⟨st', err⟩
      rw [hstep] at s1sub s1nd s1disj s1err
      cases err with
      | some e =>
          have hres : planLayers config coord st (layer :: rest) = (st', some e) := by
            simp [planLayers, hstep]
          rw [hres]
          exact ⟨s1sub, s1nd, s1disj, fun hc => by cases hc⟩
      | none =>
          have hok := s1err rfl
          have hres : planLayers config coord st (layer :: rest) =
              planLayers config coord st' rest := by
            simp [planLayers, hstep]
          rw [hres]
          obtain ⟨isub, ind, idisj, ierr⟩ := ih st' hok.1
          refine ⟨fun a ha => isub (s1sub ha), ind, idisj, fun herr => ?_⟩
          obtain ⟨iok, irefs⟩ := ierr herr
          refine ⟨iok, ?_⟩
          intro n hn
          rw [referencedNames_cons] at hn
          rcases List.mem_append.mp hn with hn | hn
          · exact isub (hok.2 n hn)
          · exact irefs n hn

/-! When every name a directive references is already in stackLayers, the
step leaves the loop state untouched (though the triple check may raise). -/

theorem planStep_no_dispatch (config : List String) (coord : Coordinate)
    (st : PlanState) (layer : LayerDirective)
    (h : ∀ n ∈ layerRefsAt coord layer, n ∈ st.stackLayers) :
    (planStep config coord st layer).1 = st := by
  by_cases hskip : zoomSkipped coord layer = true
  · simp [planStep, hskip]
  · rw [layerRefsAt, if_neg hskip] at h
    simp only [planStep, if_neg hskip]
    by_cases hbad : tripleBad layer = true
    · simp [planCheck, hbad]
    · simp only [planCheck, if_neg hbad]
      have hsrc : srcStep config coord st layer.src = st := by
        match hs : layer.src with
        | none => rfl
        | some s =>
            by_cases hempty : s.isEmpty
            · simp [srcStep, hempty]
            · have hmem : s ∈ st.stackLayers := by
                refine h s ?_
                rw [layerRefs, hs, optRef, if_neg hempty]
                exact List.mem_append_left _ (List.mem_singleton_self s)
              simp [srcStep, hempty, hmem]
      rw [hsrc]
      match hm : layer.mask with
      | none => rfl
      | some m =>
          by_cases hempty : m.isEmpty
          · simp [maskStep, hempty]
          · have hmem : m ∈ st.stackLayers := by
              refine h m ?_
              rw [layerRefs, hm, optRef, if_neg hempty]
              exact List.mem_append_right _ (List.mem_singleton_self m)
            simp [maskStep, hempty, hmem]

theorem planLayers_no_dispatch (config : List String) (coord : Coordinate) :
    ∀ (ls : List LayerDirective) (st : PlanState),
    (∀ n ∈ referencedNames coord ls, n ∈ st.stackLayers) →
    (planLayers config coord st ls).1.procs = st.procs := by
  intro ls
  induction ls with
  | nil => intro st _; rfl
  | cons layer rest ih =>
      intro st h
      have hl : ∀ n ∈ layerRefsAt coord layer, n ∈ st.stackLayers := fun n hn =>
        h n (by rw [referencedNames_cons]; exact List.mem_append_left _ hn)
      have hr : ∀ n ∈ referencedNames coord rest, n ∈ st.stackLayers := fun n hn =>
        h n (by rw [referencedNames_cons]; exact List.mem_append_right _ hn)
      have hfst := planStep_no_dispatch config coord st layer hl
      rcases hstep : planStep config coord st layer with ⟨st', err⟩
      rw [hstep] at hfst
      cases err with
      | some e =>
          have hres : planLayers config coord st (layer :: rest) = (st', some e) := by
            simp [planLayers, hstep]
          rw [hres, hfst]
      | none =>
          have hres : planLayers config coord st (layer :: rest) =
              planLayers config coord st' rest := by
            simp [planLayers, hstep]
          have hst : st' = st := hfst
          rw [hres, hst]
          exact ih st hr

/-! A directive that is not zoom-skipped and carries src, color and mask
simultaneously makes the planning loop raise before the start loop runs. -/

theorem planLayers_raises_of_triple (config : List String) (coord : Coordinate) :
    ∀ (ls : List LayerDirective) (st : PlanState),
    (∃ layer ∈ ls, zoomSkipped coord layer = false ∧ tripleBad layer = true) →
    ((planLayers config coord st ls).2).isSome = true := by
  intro ls
  induction ls with
  | nil => rintro st ⟨layer, hmem, _⟩; cases hmem
  | cons layer rest ih =>
      rintro st ⟨bad, hmem, hskip, hbad⟩
      rcases List.mem_cons.mp hmem with hb | hb
      · subst hb
        have hres : planStep config coord st bad =
            (st, some (.knownUnknown ("You can't specify src, color and mask together in a Sandwich Layer"))) := by
          simp [planStep, hskip, planCheck, hbad]
        simp [planLayers, hres]
      · rcases hstep : planStep config coord st layer with ⟨st', err⟩
        cases err with
        | some e => simp [planLayers, hstep]
        | none =>
            have hres : planLayers config coord st (layer :: rest) =
                planLayers config coord st' rest := by
              simp [planLayers, hstep]
            rw [hres]
            exact ih st' ⟨bad, hb, hskip, hbad⟩

/-! Concrete fixtures used to instantiate the theorems below. -/

def coord0 : Coordinate := ⟨5, 0, 0⟩

def dirSrcA : LayerDirective := ⟨some ("A"), none, none, none⟩

def dirSrcB : LayerDirective := ⟨some ("B"), none, none, none⟩

def dirMaskM : LayerDirective := ⟨none, some ("m"), none, none⟩

def dirTriple : LayerDirective := ⟨some ("x"), some ("y"), some ("c"), none⟩

def dirSrcBmaskA : LayerDirective := ⟨some ("B"), some ("A"), none, none⟩

def dirZoomTriple : LayerDirective := ⟨some ("x"), some ("y"), some ("c"), some (12, 18)⟩

def rendFail : RenderJob → Option Nat := fun _ => none

def rendOk7 : RenderJob → Option Nat := fun _ => some 7

def compLen : Coordinate → TileCache Nat → Nat := fun _ c => c.length

def rendExc : RenderJob → Except String Nat := fun _ => .error ("boom")

def rendVal : RenderJob → Except String Nat := fun _ => .ok 7

def job0 : RenderJob := ⟨"A", .localBitmap, coord0⟩

/-- C1: over any stack and pre-seeded cache, planning creates at most one
worker process per layer name (the process names are pairwise distinct),
and when planning completes without raising, a name referenced anywhere in
the stack (src or mask, any number of times) that is not pre-seeded gets
exactly one process. -/
theorem claim_C1 {α : Type} (config : List String) (coord : Coordinate)
    (tiles : TileCache α) (stack : List LayerDirective) :
    ((planStack config coord tiles stack).1.procs.map RenderJob.name).Nodup ∧
    ((planStack config coord tiles stack).2 = none →
      ∀ n ∈ referencedNames coord stack, n ∉ keysOf tiles →
        ((planStack config coord tiles stack).1.procs.map RenderJob.name).count n = 1) := by
  have hpseq : planStack config coord tiles stack =
      planLayers config coord ⟨keysOf tiles, []⟩ stack := rfl
  have hfacts := planLayers_ok config coord (keysOf tiles) stack ⟨keysOf tiles, []⟩
    (planOk_start _)
  rw [← hpseq] at hfacts
  obtain ⟨hsub, hnd, hdisj, herr⟩ := hfacts
  refine ⟨hnd, fun he n hn hni => ?_⟩
  obtain ⟨hok, hrefs⟩ := herr he
  have hmem : n ∈ (planStack config coord tiles stack).1.stackLayers := hrefs n hn
  rw [hok.1] at hmem
  rcases List.mem_append.mp hmem with h | h
  · exact absurd h hni
  · exact List.count_eq_one_of_mem hnd h

/-- C1 witness: the stack of spec example 3, a src reference and a mask
reference to the same name A, yields exactly one process for A. -/
theorem claim_C1_witness :
    (planStack ["A"] coord0 ([] : TileCache Nat) [dirSrcA, dirSrcBmaskA]).2 = none ∧
    "A" ∈ referencedNames coord0 [dirSrcA, dirSrcBmaskA] ∧
    "A" ∉ keysOf ([] : TileCache Nat) ∧
    ((planStack ["A"] coord0 ([] : TileCache Nat)
        [dirSrcA, dirSrcBmaskA]).1.procs.map RenderJob.name).count "A" = 1 :=
  ⟨by decide, by decide, by decide,
    (claim_C1 ["A"] coord0 [] [dirSrcA, dirSrcBmaskA]).2 (by decide) "A"
      (by decide) (by decide)⟩

/-- C2 counterexample: a stack whose first directive references the
unconfigured mask m and whose second directive is the src/mask/color triple
raises a KeyError from the mask dispatch, not the Core.KnownUnknown the
claim promises, so the claimed exception type is wrong for this stack. -/
theorem claim_C2_counterexample :
    draw_stack [] coord0 ([] : TileCache Nat) [dirMaskM, dirTriple] rendFail compLen =
      Outcome.raised (PlanError.keyError ("m")) ∧
    isKnownUnknownRaise
      (draw_stack [] coord0 ([] : TileCache Nat) [dirMaskM, dirTriple] rendFail
        compLen) = false :=
  ⟨rfl, rfl⟩

/-- C2 (amended): a stack containing a directive whose src, mask and color
are all non-empty and whose zoom restriction does not exclude the target
coordinate makes draw_stack raise before any worker process is started —
Core.KnownUnknown when planning reaches the triple directive first, though
an earlier directive whose mask names an unconfigured layer raises a
KeyError first — and in all cases zero worker processes are started. -/
theorem claim_C2_amended {α β : Type} (config : List String) (coord : Coordinate)
    (tiles : TileCache α) (stack : List LayerDirective)
    (render : RenderJob → Option α) (composite : Coordinate → TileCache α → β)
    (h : ∃ layer ∈ stack, zoomSkipped coord layer = false ∧ tripleBad layer = true) :
    (∃ e, draw_stack config coord tiles stack render composite = Outcome.raised e) ∧
    startedProcs config coord tiles stack = [] := by
  have hs : ((planStack config coord tiles stack).2).isSome = true :=
    planLayers_raises_of_triple config coord stack ⟨keysOf tiles, []⟩ h
  rcases hps : planStack config coord tiles stack with ⟨st, err⟩
  rw [hps] at hs
  cases err with
  | none => cases hs
  | some e =>
      exact ⟨⟨e, by simp [draw_stack, hps]⟩, by simp [startedProcs, hps]⟩

/-- C2 witness: spec example 5, a single triple directive. -/
theorem claim_C2_witness :
    (∃ e, draw_stack [] coord0 ([] : TileCache Nat) [dirTriple] rendFail compLen =
      Outcome.raised e) ∧
    startedProcs [] coord0 ([] : TileCache Nat) [dirTriple] = [] :=
  claim_C2_amended [] coord0 [] [dirTriple] rendFail compLen (by decide)

/-- C3 counterexample: with a single planned job whose worker never reports,
draw_stack blocks forever in the collection loop (the unbounded queue get of
line 194) instead of timing out, marking the job failed and continuing, so
the claimed bounded wait does not exist in the code. -/
theorem claim_C3_counterexample :
    draw_stack [] coord0 ([] : TileCache Nat) [dirSrcA] rendFail compLen =
      Outcome.blocked :=
  rfl

/-- C3 (amended): the collection loop performs an unbounded blocking queue
get per expected result, with no timeout; a single worker that never
reports makes the whole invocation block forever — no job is marked failed
and collection of the remaining results never completes. -/
theorem claim_C3_amended {α β : Type} (config : List String) (coord : Coordinate)
    (tiles : TileCache α) (stack : List LayerDirective)
    (render : RenderJob → Option α) (composite : Coordinate → TileCache α → β)
    (j : RenderJob)
    (hplan : (planStack config coord tiles stack).2 = none)
    (hj : j ∈ (planStack config coord tiles stack).1.procs)
    (hr : render j = none) :
    draw_stack config coord tiles stack render composite = Outcome.blocked := by
  rcases hps : planStack config coord tiles stack with ⟨st, err⟩
  rw [hps] at hplan hj
  have herr : err = none := hplan
  subst herr
  have hlt := length_filterMap_lt_of_none (workerOutput render) st.procs j hj
    (workerOutput_none_of_render_none render j hr)
  simp only [draw_stack, hps]
  rw [collectLoop, if_neg (Nat.not_le.mpr hlt)]

/-- C3 witness: the single-job stack of the counterexample, through the
amended theorem. -/
theorem claim_C3_witness :
    (planStack [] coord0 ([] : TileCache Nat) [dirSrcA]).2 = none ∧
    job0 ∈ (planStack [] coord0 ([] : TileCache Nat) [dirSrcA]).1.procs ∧
    rendFail job0 = none ∧
    draw_stack [] coord0 ([] : TileCache Nat) [dirSrcA] rendFail compLen =
      Outcome.blocked :=
  ⟨by decide, by decide, rfl,
    claim_C3_amended [] coord0 [] [dirSrcA] rendFail compLen job0 (by decide)
      (by decide) rfl⟩

/-- C4: when every name the stack references at the target coordinate is
already a key of the pre-seeded cache, planning creates no process and the
start loop starts none. -/
theorem claim_C4 {α : Type} (config : List String) (coord : Coordinate)
    (tiles : TileCache α) (stack : List LayerDirective)
    (h : ∀ n ∈ referencedNames coord stack, n ∈ keysOf tiles) :
    (planStack config coord tiles stack).1.procs = [] ∧
    startedProcs config coord tiles stack = [] := by
  have h0 : (planStack config coord tiles stack).1.procs = ([] : List RenderJob) := by
    have hpseq : planStack config coord tiles stack =
        planLayers config coord ⟨keysOf tiles, []⟩ stack := rfl
    rw [hpseq]
    exact planLayers_no_dispatch config coord stack ⟨keysOf tiles, []⟩ h
  refine ⟨h0, ?_⟩
  rcases hps : planStack config coord tiles stack with ⟨st, err⟩
  rw [hps] at h0
  cases err with
  | none => simpa [startedProcs, hps] using h0
  | some e => simp [startedProcs, hps]

/-- C4 witness: spec example 2 shape with everything pre-seeded. -/
theorem claim_C4_witness :
    (∀ n ∈ referencedNames coord0 [dirSrcA, dirSrcBmaskA],
      n ∈ keysOf ([("A", 1), ("B", 2)] : TileCache Nat)) ∧
    (planStack [] coord0 ([("A", 1), ("B", 2)] : TileCache Nat)
      [dirSrcA, dirSrcBmaskA]).1.procs = [] ∧
    startedProcs [] coord0 ([("A", 1), ("B", 2)] : TileCache Nat)
      [dirSrcA, dirSrcBmaskA] = [] :=
  ⟨by decide,
    claim_C4 [] coord0 [("A", 1), ("B", 2)] [dirSrcA, dirSrcBmaskA] (by decide)⟩

/-- C5: a directive whose zoom restriction excludes the target coordinate
zoom is skipped entirely by the planning step: the state is unchanged (no
process for its src or mask) and no error is raised, even by the triple
src/mask/color check. -/
theorem claim_C5 (config : List String) (coord : Coordinate) (st : PlanState)
    (layer : LayerDirective) (z : Int × Int)
    (hz : layer.zoom = some z) (hout : inZoom coord z = false) :
    planStep config coord st layer = (st, none) := by
  have hskip : zoomSkipped coord layer = true := by
    simp [zoomSkipped, hz, hout]
  simp [planStep, hskip]

/-- C5 witness: a zoom-restricted triple directive at an excluded zoom is
skipped without raising, spec example 4 shape. -/
theorem claim_C5_witness :
    dirZoomTriple.zoom = some (12, 18) ∧
    inZoom coord0 (12, 18) = false ∧
    planStep [] coord0 ⟨[], []⟩ dirZoomTriple = (⟨[], []⟩, none) :=
  ⟨rfl, by decide, claim_C5 [] coord0 ⟨[], []⟩ dirZoomTriple (12, 18) rfl (by decide)⟩

/-- C6 counterexample: a worker whose render operation raises performs zero
queue puts (not the promised exactly one) and the exception escapes the
worker boundary uncaught — there is no try/except in local_bitmap or
layer_bitmap and no tagged Failure result anywhere. -/
theorem claim_C6_counterexample :
    workerPuts rendExc job0 = [] ∧
    workerEscapes rendExc job0 = some ("boom") :=
  ⟨rfl, rfl⟩

/-- C6 (amended): a worker performs at most one queue put, keyed by its own
job name; it performs exactly one put precisely when the render operation
returns, and when the render raises it performs no put at all and the
exception escapes the worker boundary uncaught, with no conversion to a
tagged Failure result. -/
theorem claim_C6_amended {ε α : Type} (render : RenderJob → Except ε α)
    (j : RenderJob) :
    (workerPuts render j).length ≤ 1 ∧
    (∀ p ∈ workerPuts render j, p.1 = j.name) ∧
    (workerEscapes render j = none →
      ∃ img, workerPuts render j = [(j.name, img)]) ∧
    (∀ e, workerEscapes render j = some e → workerPuts render j = []) := by
  cases hr : render j with
  | ok img =>
      refine ⟨?_, ?_, ?_, ?_⟩ <;> simp [workerPuts, workerEscapes, hr]
  | error e =>
      refine ⟨?_, ?_, ?_, ?_⟩ <;> simp [workerPuts, workerEscapes, hr]

/-- C6 witness: both branches of the amended theorem at concrete renders. -/
theorem claim_C6_witness :
    workerEscapes rendVal job0 = none ∧
    (∃ img, workerPuts rendVal job0 = [(job0.name, img)]) ∧
    workerEscapes rendExc job0 = some ("boom") ∧
    workerPuts rendExc job0 = [] :=
  ⟨rfl, (claim_C6_amended rendVal job0).2.2.1 rfl, rfl,
    (claim_C6_amended rendExc job0).2.2.2 ("boom") rfl⟩

/-- C7 counterexample: with one dispatched job whose worker fails,
draw_stack does not return an AggregateError (no such value exists in the
code); it blocks forever in the collection loop and the compositing step
is never handed a cache. -/
theorem claim_C7_counterexample :
    compositorCache ["B"] coord0 ([] : TileCache Nat) [dirSrcB] rendFail = none ∧
    draw_stack ["B"] coord0 ([] : TileCache Nat) [dirSrcB] rendFail compLen =
      Outcome.blocked :=
  ⟨rfl, rfl⟩

/-- C7 (amended): when any dispatched job fails to report, the compositing
step is never invoked — but not because an AggregateError is returned: the
collection loop blocks forever and draw_stack never returns anything. -/
theorem claim_C7_amended {α : Type} (config : List String) (coord : Coordinate)
    (tiles : TileCache α) (stack : List LayerDirective)
    (render : RenderJob → Option α)
    (h : ∃ j ∈ (planStack config coord tiles stack).1.procs, render j = none) :
    compositorCache config coord tiles stack render = none := by
  rcases h with ⟨j, hj, hr⟩
  rcases hps : planStack config coord tiles stack with ⟨st, err⟩
  rw [hps] at hj
  cases err with
  | some e => simp [compositorCache, hps]
  | none =>
      have hlt := length_filterMap_lt_of_none (workerOutput render) st.procs j hj
        (workerOutput_none_of_render_none render j hr)
      simp only [compositorCache, hps]
      rw [collectLoop, if_neg (Nat.not_le.mpr hlt)]

/-- C7 witness: the failing single-job stack of the counterexample. -/
theorem claim_C7_witness :
    (∃ j ∈ (planStack ["B"] coord0 ([] : TileCache Nat) [dirSrcB]).1.procs,
      rendFail j = none) ∧
    compositorCache ["B"] coord0 ([] : TileCache Nat) [dirSrcB] rendFail = none :=
  ⟨by decide, claim_C7_amended ["B"] coord0 [] [dirSrcB] rendFail (by decide)⟩

/-- C8: feeding the same results to the collection merge in any order
yields an identical key-to-image cache mapping, provided the result names
are pairwise distinct (each worker reports under its own unique name). -/
theorem claim_C8 {α : Type} (c : TileCache α) (l₁ l₂ : List (String × α))
    (hp : List.Perm l₁ l₂) (hd : (l₁.map Prod.fst).Nodup) :
    ∀ k, lookupTile (mergeResults c l₁) k = lookupTile (mergeResults c l₂) k :=
  fun k => lookupTile_mergeResults_perm l₁ l₂ hp hd c k

/-- C8 witness: two arrival orders of the same two results over a
pre-seeded cache agree on a looked-up key. -/
theorem claim_C8_witness :
    List.Perm ([("A", 1), ("B", 2)] : List (String × Nat)) [("B", 2), ("A", 1)] ∧
    (([("A", 1), ("B", 2)] : List (String × Nat)).map Prod.fst).Nodup ∧
    lookupTile (mergeResults ([("C", 3)] : TileCache Nat) [("A", 1), ("B", 2)]) "A" =
      lookupTile (mergeResults ([("C", 3)] : TileCache Nat) [("B", 2), ("A", 1)]) "A" :=
  ⟨by decide, by decide, claim_C8 [("C", 3)] _ _ (by decide) (by decide) "A"⟩

/-- C9: whenever draw_stack reaches the compositing step, every planned
job's render resolved, and the cache handed over contains an entry for
every src and mask name referenced by a directive the zoom guard did not
skip, the pre-seeded names included. -/
theorem claim_C9 {α : Type} (config : List String) (coord : Coordinate)
    (tiles : TileCache α) (stack : List LayerDirective)
    (render : RenderJob → Option α) (cache : TileCache α)
    (h : compositorCache config coord tiles stack render = some cache) :
    (∀ n ∈ referencedNames coord stack, hasKey cache n = true) ∧
    (∀ j ∈ (planStack config coord tiles stack).1.procs, (render j).isSome = true) := by
  have hpseq : planStack config coord tiles stack =
      planLayers config coord ⟨keysOf tiles, []⟩ stack := rfl
  have hfacts := planLayers_ok config coord (keysOf tiles) stack ⟨keysOf tiles, []⟩
    (planOk_start _)
  rw [← hpseq] at hfacts
  obtain ⟨hsub, hnd, hdisj, herr⟩ := hfacts
  rcases hps : planStack config coord tiles stack with ⟨st, err⟩
  rw [hps] at herr
  cases err with
  | some e => simp [compositorCache, hps] at h
  | none =>
      simp only [compositorCache, hps] at h
      unfold collectLoop at h
      by_cases hle :
          st.procs.length ≤ (st.procs.filterMap (workerOutput render)).length
      · rw [if_pos hle] at h
        have hlen : (st.procs.filterMap (workerOutput render)).length =
            st.procs.length :=
          Nat.le_antisymm (List.length_filterMap_le _ _) hle
        have htake : (st.procs.filterMap (workerOutput render)).take st.procs.length =
            st.procs.filterMap (workerOutput render) := by
          rw [← hlen]
          exact List.take_length _
        rw [htake] at h
        have hcache : cache = mergeResults tiles (st.procs.filterMap (workerOutput render)) :=
          (Option.some.inj h).symm
        have hall : ∀ j ∈ st.procs, (render j).isSome = true := by
          intro j hj
          have := isSome_of_filterMap_length_eq (workerOutput render) st.procs hlen j hj
          cases hr : render j with
          | none => rw [workerOutput_none_of_render_none render j hr] at this; cases this
          | some img => rfl
        have hok := herr rfl
        refine ⟨?_, by simpa [hps] using hall⟩
        intro n hn
        have hmem : n ∈ st.stackLayers := hok.2 n hn
        rw [hok.1.1] at hmem
        rw [hcache]
        refine (hasKey_mergeResults _ tiles n).mpr ?_
        rcases List.mem_append.mp hmem with hm | hm
        · exact Or.inl ((hasKey_iff_mem_keysOf tiles n).mpr hm)
        · refine Or.inr ?_
          rw [filterMap_workerOutput_names render st.procs hall]
          exact hm
      · rw [if_neg hle] at h
        cases h

/-- C9 witness: one configured-layer job, successful render. -/
theorem claim_C9_witness :
    compositorCache ["A"] coord0 ([] : TileCache Nat) [dirSrcA] rendOk7 =
      some [("A", 7)] ∧
    hasKey ([("A", 7)] : TileCache Nat) "A" = true ∧
    (∀ j ∈ (planStack ["A"] coord0 ([] : TileCache Nat) [dirSrcA]).1.procs,
      (rendOk7 j).isSome = true) :=
  ⟨rfl,
    (claim_C9 ["A"] coord0 [] [dirSrcA] rendOk7 [("A", 7)] rfl).1 "A" (by decide),
    (claim_C9 ["A"] coord0 [] [dirSrcA] rendOk7 [("A", 7)] rfl).2⟩

/-- C10: the collection merge never overwrites or removes a pre-seeded
cache entry — every pre-seeded key still maps to its original image
afterwards — and the merged cache gains keys only among the names of the
processes planning created; the dedup membership list is a separate local
list seeded from the keys, so planning itself writes nothing into the
cache. -/
theorem claim_C10 {α : Type} (config : List String) (coord : Coordinate)
    (tiles : TileCache α) (stack : List LayerDirective)
    (render : RenderJob → Option α) :
    (∀ k, hasKey tiles k = true →
      lookupTile (mergeResults tiles
        ((planStack config coord tiles stack).1.procs.filterMap
          (workerOutput render))) k = lookupTile tiles k) ∧
    (∀ k, hasKey (mergeResults tiles
        ((planStack config coord tiles stack).1.procs.filterMap
          (workerOutput render))) k = true →
      hasKey tiles k = true ∨
        k ∈ (planStack config coord tiles stack).1.procs.map RenderJob.name) := by
  have hpseq : planStack config coord tiles stack =
      planLayers config coord ⟨keysOf tiles, []⟩ stack := rfl
  have hfacts := planLayers_ok config coord (keysOf tiles) stack ⟨keysOf tiles, []⟩
    (planOk_start _)
  rw [← hpseq] at hfacts
  obtain ⟨hsub, hnd, hdisj, herr⟩ := hfacts
  constructor
  · intro k hk
    refine lookupTile_mergeResults_of_not_mem _ tiles k ?_
    intro p hp hpk
    have hpn : p.1 ∈ (planStack config coord tiles stack).1.procs.map RenderJob.name :=
      fst_mem_of_mem_filterMap_workerOutput render _ p hp
    have : p.1 ∉ keysOf tiles := hdisj p.1 hpn
    exact this (hpk ▸ (hasKey_iff_mem_keysOf tiles k).mp hk)
  · intro k hk
    rcases (hasKey_mergeResults _ tiles k).mp hk with h | h
    · exact Or.inl h
    · rcases List.mem_map.mp h with ⟨p, hp, hpk⟩
      exact Or.inr (hpk ▸ fst_mem_of_mem_filterMap_workerOutput render _ p hp)

/-- C10 witness: a pre-seeded entry A survives collection of a newly
dispatched job B unchanged, and the only new key is the dispatched name. -/
theorem claim_C10_witness :
    hasKey ([("A", 1)] : TileCache Nat) "A" = true ∧
    lookupTile (mergeResults ([("A", 1)] : TileCache Nat)
      ((planStack [] coord0 ([("A", 1)] : TileCache Nat)
        [dirSrcA, dirSrcB]).1.procs.filterMap (workerOutput rendOk7))) "A" =
      lookupTile ([("A", 1)] : TileCache Nat) "A" ∧
    (hasKey ([("A", 1)] : TileCache Nat) "B" = true ∨
      "B" ∈ (planStack [] coord0 ([("A", 1)] : TileCache Nat)
        [dirSrcA, dirSrcB]).1.procs.map RenderJob.name) :=
  ⟨by decide,
    (claim_C10 [] coord0 [("A", 1)] [dirSrcA, dirSrcB] rendOk7).1 "A" (by decide),
    (claim_C10 [] coord0 [("A", 1)] [dirSrcA, dirSrcB] rendOk7).2 "B" (by decide)⟩
